import Mathlib

/-!
Shallow embedding of `scripts/eval_matrix.py` (RASTtk).

The script loads a genomes × roles occurrence matrix, runs one
leave-one-column-out predictor per role in parallel, reassembles the
prediction matrix, computes per-genome coarse/fine consistency scores,
and writes per-genome report files plus an aggregate summary.

Matrices are lists of rows with rational entries (the script's float
arithmetic here is comparisons, counting means and decimal rounding, all
exact at the modelled granularity).  numpy primitives used by the script
(`transpose`, `delete`, fancy indexing, `genfromtxt`'s dimension
squeezing, `round`'s half-to-even) are embedded by their semantics on
the rectangular inputs the script feeds them.
-/

namespace EvalMatrix

/-- A 2-D numpy array: a list of rows. -/
abbrev Mat := List (List ℚ)

/-- Entry access `m[i, j]`, defaulting to `0` out of range. -/
def entry (m : Mat) (i j : Nat) : ℚ := (m.getD i []).getD j 0

/-- `np.transpose` on a rectangular array (row count of the result is the
length of the first row, as numpy derives it from the shape). -/
def transposeMat (m : Mat) : Mat :=
  (List.range (m.headD []).length).map (fun i => m.map (fun r => r.getD i 0))

/-- `np.delete(m, c, axis=1)`: remove column `c` from every row. -/
def deleteCol (c : Nat) (m : Mat) : Mat := m.map (fun r => r.eraseIdx c)

/-- Python `int(x)` on a float: truncation toward zero. -/
def pytrunc (q : ℚ) : ℤ := if 0 ≤ q then ⌊q⌋ else -⌊-q⌋

/-- Conversion of a (numeric) tag back to an index, as in
`np.asarray(predictions[-1], dtype=int)`. -/
def toIdx (q : ℚ) : Nat := (pytrunc q).toNat

/-- Fancy indexing `m[:, idx]`: result column `j` is column `idx[j]`. -/
def selectCols (idx : List Nat) (m : Mat) : Mat :=
  m.map (fun r => idx.map (fun j => r.getD j 0))

/-- Reassembly of the collected per-role results
(`eval_matrix.py` lines 87–91): convert to an array, transpose, read the
index tags off the last row, drop that row, and reindex the columns by
the tags. -/
def reassemble (collected : Mat) : Mat :=
  selectCols (((transposeMat collected).getLastD []).map toIdx)
    ((transposeMat collected).dropLast)

/-- The list a task for column `σ k` contributes: its prediction vector
(one value per genome) with its own column index appended
(`results.append(n_col)`, line 45).  `collectedOf G R pred σ` is the
whole collection when the result in position `k` belongs to column
`σ k`. -/
def collectedOf (G R : Nat) (pred : Nat → Nat → ℚ) (σ : Nat → Nat) : Mat :=
  (List.range R).map (fun k => (List.range G).map (pred (σ k)) ++ [((σ k : Nat) : ℚ)])

/-! ### Index-access helper lemmas -/

theorem getD_range_map {α : Type} (f : Nat → α) (n i : Nat) (d : α) (h : i < n) :
    ((List.range n).map f).getD i d = f i := by
  rw [List.getD_eq_getElem?_getD, List.getElem?_map, List.getElem?_range h]; rfl

theorem getD_map_of_lt {α β : Type} (f : α → β) (l : List α) (i : Nat) (d : β) (d' : α)
    (h : i < l.length) : (l.map f).getD i d = f (l.getD i d') := by
  rw [List.getD_eq_getElem?_getD, List.getElem?_map, List.getD_eq_getElem?_getD,
    List.getElem?_eq_getElem h]
  simp

theorem getD_append_lt {α : Type} (l l' : List α) (i : Nat) (d : α) (h : i < l.length) :
    (l ++ l').getD i d = l.getD i d := by
  rw [List.getD_eq_getElem?_getD, List.getElem?_append_left h, List.getD_eq_getElem?_getD]

theorem getD_append_len {α : Type} (l : List α) (a d : α) :
    (l ++ [a]).getD l.length d = a := by
  rw [List.getD_eq_getElem?_getD, List.getElem?_append_right (le_refl _)]
  simp

theorem getLastD_concat' {α : Type} (l : List α) (a d : α) :
    (l ++ [a]).getLastD d = a := by
  simp [List.getLastD_concat]

/-- The tag round-trip: a column index stored as a rational comes back
unchanged through the `dtype=int` conversion. -/
theorem toIdx_natCast (n : Nat) : toIdx ((n : Nat) : ℚ) = n := by
  simp [toIdx, pytrunc, Nat.cast_nonneg]

/-! ### C1: reassembly of the parallel results -/

/-- One row of `collectedOf`. -/
def taskRow (G : Nat) (pred : Nat → Nat → ℚ) (c : Nat) : List ℚ :=
  (List.range G).map (pred c) ++ [((c : Nat) : ℚ)]

theorem collectedOf_eq_map (G R : Nat) (pred : Nat → Nat → ℚ) (σ : Nat → Nat) :
    collectedOf G R pred σ = (List.range R).map (fun k => taskRow G pred (σ k)) := rfl

theorem taskRow_length (G : Nat) (pred : Nat → Nat → ℚ) (c : Nat) :
    (taskRow G pred c).length = G + 1 := by
  simp [taskRow]

theorem taskRow_getD_val (G : Nat) (pred : Nat → Nat → ℚ) (c i : Nat) (h : i < G) :
    (taskRow G pred c).getD i 0 = pred c i := by
  rw [taskRow, getD_append_lt _ _ _ _ (by simpa using h), getD_range_map _ _ _ _ h]

theorem taskRow_getD_tag (G : Nat) (pred : Nat → Nat → ℚ) (c : Nat) :
    (taskRow G pred c).getD G 0 = ((c : Nat) : ℚ) := by
  have h := getD_append_len ((List.range G).map (pred c)) (((c : Nat) : ℚ)) 0
  rw [List.length_map, List.length_range] at h
  rw [taskRow, h]

theorem headD_range_map {α : Type} (f : Nat → α) (n : Nat) (d : α) (h : 0 < n) :
    ((List.range n).map f).headD d = f 0 := by
  cases n with
  | zero => omega
  | succ m => rw [List.range_succ_eq_map]; rfl

theorem transpose_collectedOf (G R : Nat) (pred : Nat → Nat → ℚ) (σ : Nat → Nat)
    (hR : 0 < R) :
    transposeMat (collectedOf G R pred σ)
      = (List.range (G + 1)).map
          (fun i => (collectedOf G R pred σ).map (fun r => r.getD i 0)) := by
  rw [transposeMat]
  congr 2
  rw [collectedOf_eq_map, headD_range_map _ _ _ hR, taskRow_length]

theorem getLast_transpose_collectedOf (G R : Nat) (pred : Nat → Nat → ℚ) (σ : Nat → Nat)
    (hR : 0 < R) :
    ((transposeMat (collectedOf G R pred σ)).getLastD []).map toIdx
      = (List.range R).map σ := by
  rw [transpose_collectedOf G R pred σ hR, List.range_succ, List.map_append]
  simp only [List.map_cons, List.map_nil]
  rw [getLastD_concat']
  rw [collectedOf_eq_map, List.map_map, List.map_map]
  apply List.map_congr_left
  intro k _
  simp only [Function.comp]
  rw [taskRow_getD_tag, toIdx_natCast]

theorem dropLast_transpose_collectedOf (G R : Nat) (pred : Nat → Nat → ℚ) (σ : Nat → Nat)
    (hR : 0 < R) :
    (transposeMat (collectedOf G R pred σ)).dropLast
      = (List.range G).map
          (fun i => (collectedOf G R pred σ).map (fun r => r.getD i 0)) := by
  rw [transpose_collectedOf G R pred σ hR, List.range_succ, List.map_append]
  simp only [List.map_cons, List.map_nil]
  rw [List.dropLast_concat]

/-- C1 (amended): when the collection permutation `σ` is an involution on
the column range (in particular, the identity order in which the parallel
utility actually returns results), column `c` of the reassembled matrix
equals the prediction vector of the predictor invoked for column `c`. -/
theorem reassemble_involution_correct (G R : Nat) (pred : Nat → Nat → ℚ) (σ : Nat → Nat)
    (hR : 0 < R) (hσlt : ∀ k, k < R → σ k < R) (hinv : ∀ k, k < R → σ (σ k) = k)
    (g c : Nat) (hg : g < G) (hc : c < R) :
    entry (reassemble (collectedOf G R pred σ)) g c = pred c g := by
  simp only [reassemble]
  rw [getLast_transpose_collectedOf G R pred σ hR,
    dropLast_transpose_collectedOf G R pred σ hR]
  simp only [selectCols, entry, List.map_map]
  rw [getD_range_map _ _ _ _ hg]
  simp only [Function.comp]
  rw [getD_range_map _ _ _ _ hc]
  simp only [Function.comp]
  have hlen : (collectedOf G R pred σ).length = R := by
    simp [collectedOf]
  rw [getD_map_of_lt _ _ _ _ [] (by rw [hlen]; exact hσlt c hc)]
  rw [collectedOf_eq_map, getD_range_map _ _ _ _ (hσlt c hc)]
  rw [taskRow_getD_val _ _ _ _ hg, hinv c hc]

/-- C1 (counterexample): when the three tasks' results are collected in
3-cycle order (position 0 holds column 1's result, position 1 column 2's,
position 2 column 0's — a genuine permutation of the column range), the
reassembled column 0 is `12`, the prediction of the predictor for column
2, not the value `10` returned by the predictor invoked for column 0. -/
theorem reassemble_out_of_order_counterexample :
    ([[11, 1], [12, 2], [10, 0]] : Mat)
        = collectedOf 1 3 (fun c _ => ([10, 11, 12] : List ℚ).getD c 0)
            (fun k => [1, 2, 0].getD k 0)
      ∧ List.Perm ([1, 2, 0].map (fun k => [1, 2, 0].getD k 0)) (List.range 3)
      ∧ entry (reassemble [[11, 1], [12, 2], [10, 0]]) 0 0 = 12
      ∧ (fun c _ => ([10, 11, 12] : List ℚ).getD c 0) 0 0 = 10
      ∧ entry (reassemble [[11, 1], [12, 2], [10, 0]]) 0 0
          ≠ (fun c _ => ([10, 11, 12] : List ℚ).getD c 0) 0 0 := by
  refine ⟨by decide, by decide, by decide, by decide, by decide⟩

/-- Witness for the amended C1 theorem at a concrete input: two columns
collected in identity order for a single genome. -/
theorem reassemble_involution_correct_witness :
    entry (reassemble (collectedOf 1 2 (fun c _ => ([10, 11, 12] : List ℚ).getD c 0)
      (fun k => k))) 0 1 = 11 := by
  have h := reassemble_involution_correct 1 2 (fun c _ => ([10, 11, 12] : List ℚ).getD c 0)
    (fun k => k) (by decide) (fun k hk => hk) (fun k _ => rfl) 0 1 (by decide) (by decide)
  rw [h]; rfl

/-! ### Loader model: `np.genfromtxt` dimension squeezing (C4, C6) -/

/-- A numpy array of rank ≤ 2, as `np.genfromtxt` can produce. -/
inductive NpArr (α : Type) where
  | scalar (a : α)
  | vec (v : List α)
  | mat (m : List (List α))
deriving DecidableEq, Repr

/-- `len(a.shape)`. -/
def NpArr.ndim {α : Type} : NpArr α → Nat
  | .scalar _ => 0
  | .vec _ => 1
  | .mat _ => 2

/-- `a.shape` as a list of dimension sizes. -/
def NpArr.shape {α : Type} : NpArr α → List Nat
  | .scalar _ => []
  | .vec v => [v.length]
  | .mat m => [m.length, (m.headD []).length]

/-- `a.reshape(1, -1)`: flatten into a single row. -/
def NpArr.reshapeRow {α : Type} : NpArr α → NpArr α
  | .scalar a => .mat [[a]]
  | .vec v => .mat [v]
  | .mat m => .mat m

/-- `np.genfromtxt` on a table of parsed fields: a single value becomes a
0-d array, a single row (or a single column) collapses to a 1-d vector,
anything else stays 2-d — the squeezing quirk the script's own comment
(lines 74–75) documents. -/
def genfromtxt {α : Type} (rows : List (List α)) : NpArr α :=
  match rows with
  | [[a]] => .scalar a
  | [r] => .vec r
  | _ => if rows.all (fun r => r.length = 1)
         then .vec (rows.filterMap List.head?)
         else .mat rows

/-- The script's dimension fix-up (lines 76–79): reshape to `(1, -1)`
whenever the loaded array is not 2-d. -/
def normalize2D {α : Type} (a : NpArr α) : NpArr α :=
  if a.ndim ≠ 2 then a.reshapeRow else a

/-- `X_all` loading (lines 70, 76–77): `genfromtxt` plus normalization. -/
def loadX (rows : List (List ℚ)) : NpArr ℚ := normalize2D (genfromtxt rows)

/-- `genomes` loading (lines 72, 78–79): `genfromtxt` plus normalization. -/
def loadGenomes (rows : List (List String)) : NpArr String :=
  normalize2D (genfromtxt rows)

/-- `col_names` loading (line 71): `genfromtxt` with no normalization. -/
def loadColNames (rows : List (List String)) : NpArr String := genfromtxt rows

/-- C4 (amended): a single-row `X` or `row.h` artifact is restored to a
2-D array of shape `(1, R)` by the reshape fix-up, whatever the row
holds — including the degenerate single-value case, which `genfromtxt`
collapses to a 0-d array.  (The column-label artifact receives no such
normalization; see the counterexample.) -/
theorem single_row_load_normalized (xr : List ℚ) (rr : List String) :
    loadX [xr] = .mat [xr] ∧ (loadX [xr]).ndim = 2 ∧ (loadX [xr]).shape = [1, xr.length]
      ∧ loadGenomes [rr] = .mat [rr] ∧ (loadGenomes [rr]).ndim = 2
      ∧ (loadGenomes [rr]).shape = [1, rr.length] := by
  have hx : loadX [xr] = .mat [xr] := by
    cases xr with
    | nil => rfl
    | cons a t => cases t with
      | nil => rfl
      | cons b t' => rfl
  have hr : loadGenomes [rr] = .mat [rr] := by
    cases rr with
    | nil => rfl
    | cons a t => cases t with
      | nil => rfl
      | cons b t' => rfl
  refine ⟨hx, ?_, ?_, hr, ?_, ?_⟩ <;> simp [hx, hr, NpArr.ndim, NpArr.shape]

/-- C4 (counterexample): the column-label artifact is loaded without the
reshape fix-up, so a single-row `col.h` stays a flattened 1-D vector,
refuting the claim that every single-row delimited artifact (including
the column labels) is normalized back to shape `(1, R)`. -/
theorem single_row_col_names_not_normalized :
    loadColNames [["0", "RoleA"]] = .vec ["0", "RoleA"]
      ∧ (loadColNames [["0", "RoleA"]]).ndim = 1
      ∧ (loadColNames [["0", "RoleA"]]).ndim ≠ 2 := by
  refine ⟨rfl, rfl, by decide⟩

/-! ### The per-role predictor (C6, C9) -/

/-- `X_feat.reshape(-1, 1)`: row-major flatten into a single column. -/
def reshapeCol (m : Mat) : Mat := m.flatten.map (fun x => [x])

/-- The `--LDA` feature-subset step (lines 33–37): load `LDA_vars`,
select the declared columns, reshape if the declared list has one entry.
A single-entry file loads as a 0-d array, whose empty shape tuple makes
`vars_to_use.shape[0]` raise `IndexError`, modelled as `none`.  (A 2-D
variable table would make `X[:, vars]` 3-D, outside this 2-D embedding;
no claim depends on that case, and the flat `LDA_vars` format never
produces it.) -/
def ldaFeatures (X : Mat) (ldaRows : List (List Nat)) : Option Mat :=
  match genfromtxt ldaRows with
  | .scalar _ => none
  | .vec vs =>
      some (if vs.length = 1 then reshapeCol (selectCols vs X) else selectCols vs X)
  | .mat _ => none

theorem getD_eraseIdx {α : Type} (l : List α) (c j : Nat) (d : α) :
    (l.eraseIdx c).getD j d = l.getD (if j < c then j else j + 1) d := by
  induction l generalizing c j with
  | nil => simp [List.eraseIdx]
  | cons a t ih =>
    cases c with
    | zero => simp [List.eraseIdx]
    | succ c' =>
      cases j with
      | zero => simp [List.eraseIdx]
      | succ j' =>
        simp only [List.eraseIdx, List.getD_cons_succ]
        rw [ih]
        by_cases h : j' < c' <;> simp [h, Nat.succ_lt_succ_iff]

/-- `run_predictor` (lines 24–47), with the loaded classifier artifact
abstracted as a function from the feature matrix to a prediction list:
extract nothing but drop the target column, optionally restrict to the
LDA subset, predict, and append the task's own column index. -/
def run_predictor (useLDA : Bool) (ldaRows : List (List Nat)) (clf : Mat → List ℚ)
    (X_all : Mat) (n_col : Nat) : Option (List ℚ) :=
  match (if useLDA then ldaFeatures (deleteCol n_col X_all) ldaRows
         else some (deleteCol n_col X_all)) with
  | none => none
  | some Xfeat => some (clf Xfeat ++ [((n_col : Nat) : ℚ)])

/-- C6 (code evaluated at the failing input): with `--LDA` and an
`LDA_vars` file declaring the single entry `5`, `genfromtxt` yields a
0-d array whose shape tuple is empty, so `vars_to_use.shape[0]` raises
`IndexError` — the classifier is never reached, contradicting the claim
that it receives a 2-D `(G, 1)` feature matrix. -/
theorem lda_single_entry_crashes :
    genfromtxt ([[5]] : List (List Nat)) = .scalar 5
      ∧ (genfromtxt ([[5]] : List (List Nat))).shape[0]? = none
      ∧ ldaFeatures [[1, 2], [3, 4]] [[5]] = none
      ∧ run_predictor true [[5]] (fun _ => [0]) [[1, 2, 3]] 0 = none := by
  refine ⟨rfl, rfl, rfl, rfl⟩

/-- C9: the classifier input in the plain path is exactly the feature
matrix with the target column removed — every entry of it is an entry of
`X_all` at a column index other than `n_col` — and, on every path that
returns, the result list's last element is the task's own column index. -/
theorem run_predictor_excludes_target (lda : List (List Nat)) (clf : Mat → List ℚ)
    (X_all : Mat) (c : Nat) :
    run_predictor false lda clf X_all c
        = some (clf (deleteCol c X_all) ++ [((c : Nat) : ℚ)])
      ∧ (∀ g j, entry (deleteCol c X_all) g j
            = entry X_all g (if j < c then j else j + 1)
          ∧ (if j < c then j else j + 1) ≠ c)
      ∧ (∀ (useLDA : Bool) (r : List ℚ),
          run_predictor useLDA lda clf X_all c = some r →
            r.getLast? = some ((c : Nat) : ℚ)) := by
  refine ⟨rfl, ?_, ?_⟩
  · intro g j
    constructor
    · simp only [entry, deleteCol]
      by_cases hg : g < X_all.length
      · rw [getD_map_of_lt _ _ _ _ [] hg, getD_eraseIdx]
      · have h1 : (List.map (fun r => r.eraseIdx c) X_all).getD g [] = [] := by
          apply List.getD_eq_default
          simpa using Nat.le_of_not_lt hg
        have h2 : X_all.getD g [] = [] := List.getD_eq_default _ _ (Nat.le_of_not_lt hg)
        rw [h1, h2]
        rfl
    · by_cases h : j < c <;> simp [h] <;> omega
  · intro useLDA r hr
    simp only [run_predictor] at hr
    split at hr
    · exact absurd hr (by simp)
    · simp only [Option.some.injEq] at hr
      subst hr
      simp

/-- Witness for C9 at a concrete input: a 2-variable LDA run whose task
for column 0 returns its prediction tagged with 0. -/
theorem run_predictor_excludes_target_witness :
    run_predictor true [[0, 1]] (fun m => [(m.headD []).getD 0 0]) [[1, 2, 3]] 0
        = some [2, 0]
      ∧ List.getLast? ([2, 0] : List ℚ) = some ((0 : Nat) : ℚ) := by
  refine ⟨rfl, ?_⟩
  exact (run_predictor_excludes_target [[0, 1]] (fun m => [(m.headD []).getD 0 0])
    [[1, 2, 3]] 0).2.2 true [2, 0] rfl

/-! ### Consistency scoring (C2, C3): lines 93–97 -/

/-- One row of `X_all > 0` (line 93): elementwise presence flags. -/
def presentRow (r : List ℚ) : List Bool := r.map (fun x => decide (0 < x))

/-- Elementwise `==` of two boolean rows. -/
def eqRowB (a b : List Bool) : List Bool := (a.zip b).map (fun z => decide (z.1 = z.2))

/-- `np.mean` of a boolean vector: the fraction of `True` entries. -/
def meanB (bs : List Bool) : ℚ := (bs.countP id : ℚ) / (bs.length : ℚ)

/-- One row of `coarse_const` (line 96). -/
def coarseRow (xr pr : List ℚ) : ℚ :=
  100 * meanB (eqRowB (presentRow xr) (presentRow pr))

/-- One row of `fine_const` (line 97). -/
def fineRow (xr pr : List ℚ) : ℚ :=
  100 * meanB ((xr.zip pr).map (fun w => decide (w.1 = w.2)))

/-- `coarse_const = 100.0*np.mean(real_present == pred_present, axis=1)`. -/
def coarse_const (X P : Mat) : List ℚ := (X.zip P).map (fun z => coarseRow z.1 z.2)

/-- `fine_const = 100.0*np.mean(X_all == predictions, axis=1)`. -/
def fine_const (X P : Mat) : List ℚ := (X.zip P).map (fun z => fineRow z.1 z.2)

theorem getD_zip {α β : Type} (l : List α) (l' : List β) (i : Nat) (d : α) (d' : β)
    (h1 : i < l.length) (h2 : i < l'.length) :
    (l.zip l').getD i (d, d') = (l.getD i d, l'.getD i d') := by
  induction l generalizing l' i with
  | nil => simp at h1
  | cons a t ih =>
    cases l' with
    | nil => simp at h2
    | cons b t' =>
      cases i with
      | zero => rfl
      | succ j =>
        rw [List.zip_cons_cons, List.getD_cons_succ, List.getD_cons_succ,
          List.getD_cons_succ]
        exact ih t' j (by simpa using h1) (by simpa using h2)

theorem countP_zip_range {α β : Type} (l : List α) (l' : List β) (q : α → β → Bool)
    (R : Nat) (d : α) (d' : β) (h1 : l.length = R) (h2 : l'.length = R) :
    (l.zip l').countP (fun z => q z.1 z.2)
      = (List.range R).countP (fun j => q (l.getD j d) (l'.getD j d')) := by
  induction R generalizing l l' with
  | zero =>
    have hl : l = [] := List.eq_nil_of_length_eq_zero h1
    have hl' : l' = [] := List.eq_nil_of_length_eq_zero h2
    subst hl; subst hl'; rfl
  | succ R ih =>
    cases l with
    | nil => simp at h1
    | cons a t =>
      cases l' with
      | nil => simp at h2
      | cons b t' =>
        have ht : t.length = R := by simpa using h1
        have ht' : t'.length = R := by simpa using h2
        rw [List.zip_cons_cons, List.countP_cons, List.range_succ_eq_map,
          List.countP_cons, List.countP_map, ih t t' ht ht']
        have e1 : (List.range R).countP
              ((fun j => q ((a :: t).getD j d) ((b :: t').getD j d')) ∘ Nat.succ)
            = (List.range R).countP (fun j => q (t.getD j d) (t'.getD j d')) := by
          apply List.countP_congr
          intro j _
          simp [Function.comp, List.getD_cons_succ]
        rw [e1]
        simp [List.getD_cons_zero]

theorem decide_beq_decide (p q : Prop) [Decidable p] [Decidable q] :
    decide (decide p = decide q) = decide (p ↔ q) := by
  by_cases hp : p <;> by_cases hq : q <;> simp [hp, hq]

theorem coarseRow_eq_count (xr pr : List ℚ) (R : Nat)
    (hx : xr.length = R) (hp : pr.length = R) :
    coarseRow xr pr
      = 100 * (((List.range R).countP
          (fun j => decide ((0 < xr.getD j 0) ↔ (0 < pr.getD j 0))) : ℚ) / R) := by
  have hzip : (xr.zip pr).length = R := by
    rw [List.length_zip xr pr, hx, hp, min_self]
  have hrow : eqRowB (presentRow xr) (presentRow pr)
      = (xr.zip pr).map (fun z =>
          decide (decide (0 < z.1) = decide (0 < z.2))) := by
    rw [eqRowB, presentRow, presentRow, List.zip_map, List.map_map]
    rfl
  rw [coarseRow, meanB, hrow, List.countP_map, List.length_map, hzip]
  congr 2
  rw [List.countP_congr (q := fun z : ℚ × ℚ => decide ((0 < z.1) ↔ (0 < z.2)))
    (fun z _ => by rw [Function.comp, id_def, decide_beq_decide])]
  exact_mod_cast countP_zip_range xr pr
    (fun x y => decide ((0 < x) ↔ (0 < y))) R 0 0 hx hp

theorem fineRow_eq_count (xr pr : List ℚ) (R : Nat)
    (hx : xr.length = R) (hp : pr.length = R) :
    fineRow xr pr
      = 100 * (((List.range R).countP
          (fun j => decide (xr.getD j 0 = pr.getD j 0)) : ℚ) / R) := by
  have hzip : (xr.zip pr).length = R := by
    rw [List.length_zip xr pr, hx, hp, min_self]
  rw [fineRow, meanB, List.countP_map, List.length_map, hzip]
  congr 2
  rw [List.countP_congr (q := fun z : ℚ × ℚ => decide (z.1 = z.2)) (fun z _ => by rfl)]
  exact_mod_cast countP_zip_range xr pr (fun x y => decide (x = y)) R 0 0 hx hp

theorem coarse_const_getD (X P : Mat) (g : Nat) (hgX : g < X.length)
    (hgP : g < P.length) :
    (coarse_const X P).getD g 0 = coarseRow (X.getD g []) (P.getD g []) := by
  have hlt : g < (X.zip P).length := by
    rw [List.length_zip X P]
    exact lt_min hgX hgP
  rw [coarse_const, getD_map_of_lt _ _ _ _ ([], []) hlt, getD_zip _ _ _ _ _ hgX hgP]

theorem fine_const_getD (X P : Mat) (g : Nat) (hgX : g < X.length)
    (hgP : g < P.length) :
    (fine_const X P).getD g 0 = fineRow (X.getD g []) (P.getD g []) := by
  have hlt : g < (X.zip P).length := by
    rw [List.length_zip X P]
    exact lt_min hgX hgP
  rw [fine_const, getD_map_of_lt _ _ _ _ ([], []) hlt, getD_zip _ _ _ _ _ hgX hgP]

/-- C2: per-genome scores are `coarse = 100 × mean((X>0) == (P>0))` and
`fine = 100 × mean(X == P)`, the mean ranging over that genome's `R`
roles: each equals 100 times the count of agreeing roles divided by `R`. -/
theorem consistency_scores_formula (X P : Mat) (g R : Nat)
    (hgX : g < X.length) (hgP : g < P.length)
    (hx : (X.getD g []).length = R) (hp : (P.getD g []).length = R) :
    (coarse_const X P).getD g 0
        = 100 * (((List.range R).countP
            (fun j => decide ((0 < entry X g j) ↔ (0 < entry P g j))) : ℚ) / R)
      ∧ (fine_const X P).getD g 0
        = 100 * (((List.range R).countP
            (fun j => decide (entry X g j = entry P g j)) : ℚ) / R) := by
  constructor
  · rw [coarse_const_getD X P g hgX hgP, coarseRow_eq_count _ _ R hx hp]
    rfl
  · rw [fine_const_getD X P g hgX hgP, fineRow_eq_count _ _ R hx hp]
    rfl

/-- Witness for C2 at a concrete input: one genome, two roles. -/
theorem consistency_scores_formula_witness :
    (coarse_const [[1, 0]] [[1, 2]]).getD 0 0
        = 100 * (((List.range 2).countP
            (fun j => decide ((0 < entry [[1, 0]] 0 j) ↔ (0 < entry [[1, 2]] 0 j))) : ℚ) / 2)
      ∧ (fine_const [[1, 0]] [[1, 2]]).getD 0 0
        = 100 * (((List.range 2).countP
            (fun j => decide (entry [[1, 0]] 0 j = entry [[1, 2]] 0 j)) : ℚ) / 2) :=
  consistency_scores_formula [[1, 0]] [[1, 2]] 0 2 (by decide) (by decide)
    (by decide) (by decide)

/-- C3: each per-genome coarse and fine score lies in `[0, 100]`, and
fine ≤ coarse, since exact equality of counts implies equal presence. -/
theorem consistency_scores_bounds (X P : Mat) (g R : Nat) (hR : 0 < R)
    (hgX : g < X.length) (hgP : g < P.length)
    (hx : (X.getD g []).length = R) (hp : (P.getD g []).length = R) :
    0 ≤ (coarse_const X P).getD g 0 ∧ (coarse_const X P).getD g 0 ≤ 100
      ∧ 0 ≤ (fine_const X P).getD g 0 ∧ (fine_const X P).getD g 0 ≤ 100
      ∧ (fine_const X P).getD g 0 ≤ (coarse_const X P).getD g 0 := by
  rw [coarse_const_getD X P g hgX hgP, coarseRow_eq_count _ _ R hx hp,
    fine_const_getD X P g hgX hgP, fineRow_eq_count _ _ R hx hp]
  have hRQ : (0 : ℚ) < R := by exact_mod_cast hR
  have hcC : ((List.range R).countP
      (fun j => decide ((0 < (X.getD g []).getD j 0) ↔ (0 < (P.getD g []).getD j 0))) : ℚ)
        ≤ R := by
    exact_mod_cast le_of_le_of_eq (List.countP_le_length _) (List.length_range R)
  have hcF : ((List.range R).countP
      (fun j => decide ((X.getD g []).getD j 0 = (P.getD g []).getD j 0)) : ℚ) ≤ R := by
    exact_mod_cast le_of_le_of_eq (List.countP_le_length _) (List.length_range R)
  have hFC : (List.range R).countP
        (fun j => decide ((X.getD g []).getD j 0 = (P.getD g []).getD j 0))
      ≤ (List.range R).countP
        (fun j => decide ((0 < (X.getD g []).getD j 0) ↔ (0 < (P.getD g []).getD j 0))) := by
    apply List.countP_mono_left
    intro j _ h
    simp only [decide_eq_true_eq] at h ⊢
    rw [h]
  have h100 : (0 : ℚ) ≤ 100 := by norm_num
  refine ⟨?_, ?_, ?_, ?_, ?_⟩
  · positivity
  · have h1 : (_ : ℚ) / R ≤ 1 := (div_le_one hRQ).mpr hcC
    calc 100 * (_ / (R : ℚ)) ≤ 100 * 1 := mul_le_mul_of_nonneg_left h1 h100
      _ = 100 := by norm_num
  · positivity
  · have h1 : (_ : ℚ) / R ≤ 1 := (div_le_one hRQ).mpr hcF
    calc 100 * (_ / (R : ℚ)) ≤ 100 * 1 := mul_le_mul_of_nonneg_left h1 h100
      _ = 100 := by norm_num
  · apply mul_le_mul_of_nonneg_left _ h100
    exact div_le_div_of_nonneg_right (by exact_mod_cast hFC) hRQ.le

/-- Witness for C3 at a concrete input: one genome, two roles. -/
theorem consistency_scores_bounds_witness :
    0 ≤ (coarse_const [[1, 0]] [[1, 2]]).getD 0 0
      ∧ (coarse_const [[1, 0]] [[1, 2]]).getD 0 0 ≤ 100
      ∧ 0 ≤ (fine_const [[1, 0]] [[1, 2]]).getD 0 0
      ∧ (fine_const [[1, 0]] [[1, 2]]).getD 0 0 ≤ 100
      ∧ (fine_const [[1, 0]] [[1, 2]]).getD 0 0
          ≤ (coarse_const [[1, 0]] [[1, 2]]).getD 0 0 :=
  consistency_scores_bounds [[1, 0]] [[1, 2]] 0 2 (by decide) (by decide) (by decide)
    (by decide) (by decide)

/-! ### Rounding and the report writer (C5, C8, C10): lines 98–124 -/

/-- Round to the nearest integer, halves to even (`np.round`'s rule). -/
def roundHalfEven (q : ℚ) : ℤ :=
  if q - ⌊q⌋ = 1/2 then (if Even ⌊q⌋ then ⌊q⌋ else ⌊q⌋ + 1) else round q

/-- `np.round(q, decimals = d)`. -/
def npRound (d : Nat) (q : ℚ) : ℚ := (roundHalfEven (q * 10 ^ d) : ℚ) / 10 ^ d

/-- `score_table` (lines 98–100): genome id with both scores rounded to
2 decimals.  Computed by the script but never written anywhere. -/
def score_table (genomes : List (List String)) (coarse fine : List ℚ) :
    List (String × ℚ × ℚ) :=
  (List.range genomes.length).map (fun g =>
    ((genomes.getD g []).getD 1 "", npRound 2 (coarse.getD g 0), npRound 2 (fine.getD g 0)))

/-- A line of an output file, at the granularity the claims speak about:
the numeric payloads rather than their decimal rendering. -/
inductive Line where
  | header (label : String) (value : ℚ)
  | mismatch (roleID : String) (predInt realInt : ℤ)
  | summaryRow (genomeID : String) (coarsePct finePct : ℚ)
deriving DecidableEq, Repr

/-- File contents, by path. -/
abbrev FS := String → List Line

/-- The body of the mismatch loop (lines 114–119) for one column: a line
is produced iff the predicted and true values differ, and it shows both
values truncated with `int()`. -/
def mismatchAt (colNames : List (List String)) (xr pr : List ℚ) (c : Nat) :
    Option Line :=
  if pr.getD c 0 ≠ xr.getD c 0 then
    some (.mismatch ((colNames.getD c []).getD 1 "")
      (pytrunc (pr.getD c 0)) (pytrunc (xr.getD c 0)))
  else none

/-- All mismatch lines of one genome row, over the `R` role columns. -/
def mismatchLines (R : Nat) (colNames : List (List String)) (xr pr : List ℚ) :
    List Line :=
  (List.range R).filterMap (mismatchAt colNames xr pr)

/-- The consistency block appended to a per-genome file (lines 111–119):
the two headers at 1-decimal rounding, then the mismatch lines. -/
def summaryBlock (R : Nat) (colNames : List (List String)) (xr pr : List ℚ)
    (coarse fine : ℚ) : List Line :=
  .header "Coarse Consistency:" (npRound 1 coarse)
    :: .header "Fine Consistency:" (npRound 1 fine)
    :: mismatchLines R colNames xr pr

/-- `open(path, 'ab')` followed by `np.savetxt`: append to the file. -/
def appendFile (fs : FS) (path : String) (ls : List Line) : FS :=
  fun p => if p = path then fs p ++ ls else fs p

/-- `np.savetxt(path, ...)` on a file name: create/truncate and write. -/
def writeFile (fs : FS) (path : String) (ls : List Line) : FS :=
  fun p => if p = path then ls else fs p

/-- `<outDir>/<genomeID>.out`. -/
def gtoSumPath (outDir gid : String) : String := outDir ++ "/" ++ gid ++ ".out"

/-- `<testDir>/summary.out`. -/
def summaryPath (testDir : String) : String := testDir ++ "/summary.out"

/-- Directory-set plus file contents. -/
structure IOState where
  dirs : String → Bool
  files : FS

/-- The whole reporting phase (lines 102–124): make `outDir` if absent,
append each genome's consistency block to `<outDir>/<gid>.out`, and write
the aggregate `all_summary` table — whose entries reuse the same
1-decimal `coarseNum`/`fineNum` strings as the per-genome headers — to
`<testDir>/summary.out`. -/
def reportPhase (outDir testDir : String) (colNames genomes : List (List String))
    (X P : Mat) (s : IOState) : IOState :=
  { dirs := if s.dirs outDir then s.dirs else fun d => if d = outDir then true else s.dirs d
    files := writeFile
      ((List.range X.length).foldl (fun fs g =>
          appendFile fs (gtoSumPath outDir ((genomes.getD g []).getD 1 ""))
            (summaryBlock ((X.headD []).length) colNames (X.getD g []) (P.getD g [])
              ((coarse_const X P).getD g 0) ((fine_const X P).getD g 0))) s.files)
      (summaryPath testDir)
      ((List.range X.length).map (fun g => Line.summaryRow
          ((genomes.getD g []).getD 1 "")
          (npRound 1 ((coarse_const X P).getD g 0))
          (npRound 1 ((fine_const X P).getD g 0)))) }

theorem reportPhase_summary_content (outDir testDir : String)
    (colNames genomes : List (List String)) (X P : Mat) (s : IOState) :
    (reportPhase outDir testDir colNames genomes X P s).files (summaryPath testDir)
      = (List.range X.length).map (fun g => Line.summaryRow
          ((genomes.getD g []).getD 1 "")
          (npRound 1 ((coarse_const X P).getD g 0))
          (npRound 1 ((fine_const X P).getD g 0))) := by
  simp [reportPhase, writeFile]

/-- C5 (amended): each run overwrites `<testDir>/summary.out` — its final
content does not depend on the prior file system — with exactly one row
per genome holding (genomeID, coarse%, fine%), both percentages rounded
to 1 decimal place, the same values as the per-genome text headers.  (The
2-decimal `score_table` is computed but never written.) -/
theorem summary_out_overwritten (outDir testDir : String)
    (colNames genomes : List (List String)) (X P : Mat) (s s' : IOState) :
    (reportPhase outDir testDir colNames genomes X P s).files (summaryPath testDir)
        = (List.range X.length).map (fun g => Line.summaryRow
            ((genomes.getD g []).getD 1 "")
            (npRound 1 ((coarse_const X P).getD g 0))
            (npRound 1 ((fine_const X P).getD g 0)))
      ∧ (reportPhase outDir testDir colNames genomes X P s).files (summaryPath testDir)
        = (reportPhase outDir testDir colNames genomes X P s').files
            (summaryPath testDir) := by
  refine ⟨reportPhase_summary_content outDir testDir colNames genomes X P s, ?_⟩
  rw [reportPhase_summary_content, reportPhase_summary_content]

/-- C5 (counterexample): on a one-genome, three-role input with fine
score 200/3 %, the row written to `summary.out` carries the 1-decimal
value 66.7, not the 2-decimal rounding 66.67 that the claim asserts for
the aggregate table (the 2-decimal `score_table` is dead code). -/
theorem summary_out_two_decimals_counterexample :
    (reportPhase "out" "test" [["0", "A"], ["1", "B"], ["2", "C"]] [["0", "G1"]]
        [[1, 1, 1]] [[1, 1, 2]] ⟨fun _ => false, fun _ => []⟩).files (summaryPath "test")
        = [Line.summaryRow "G1" 100 (667/10)]
      ∧ (fine_const [[1, 1, 1]] [[1, 1, 2]]).getD 0 0 = 200/3
      ∧ npRound 2 (200/3) = 6667/100
      ∧ (667/10 : ℚ) ≠ 6667/100 := by
  have hfine : (fine_const [[1, 1, 1]] [[1, 1, 2]]).getD 0 0 = 200/3 := by
    rw [fine_const_getD _ _ 0 (by decide) (by decide),
      fineRow_eq_count _ _ 3 (by decide) (by decide)]
    have hcount : (List.range 3).countP
        (fun j => decide ((([[1, 1, 1]] : Mat).getD 0 []).getD j 0
          = (([[1, 1, 2]] : Mat).getD 0 []).getD j 0)) = 2 := by decide
    rw [hcount]
    norm_num
  have hcoarse : (coarse_const [[1, 1, 1]] [[1, 1, 2]]).getD 0 0 = 100 := by
    rw [coarse_const_getD _ _ 0 (by decide) (by decide),
      coarseRow_eq_count _ _ 3 (by decide) (by decide)]
    have hcount : (List.range 3).countP
        (fun j => decide ((0 < (([[1, 1, 1]] : Mat).getD 0 []).getD j 0)
          ↔ (0 < (([[1, 1, 2]] : Mat).getD 0 []).getD j 0))) = 3 := by decide
    rw [hcount]
    norm_num
  have hr1 : npRound 1 (200/3) = 667/10 := by
    have hfl : ⌊(200/3 * 10 ^ 1 : ℚ)⌋ = 666 := by norm_num
    rw [npRound, roundHalfEven, hfl]
    rw [if_neg (by norm_num), round_eq]
    norm_num
  have hr2 : npRound 2 (200/3) = 6667/100 := by
    have hfl : ⌊(200/3 * 10 ^ 2 : ℚ)⌋ = 6666 := by norm_num
    rw [npRound, roundHalfEven, hfl]
    rw [if_neg (by norm_num), round_eq]
    norm_num
  have hr100 : npRound 1 (100 : ℚ) = 100 := by
    have hfl : ⌊(100 * 10 ^ 1 : ℚ)⌋ = 1000 := by norm_num
    rw [npRound, roundHalfEven, hfl]
    rw [if_neg (by norm_num), round_eq]
    norm_num
  refine ⟨?_, hfine, hr2, by norm_num⟩
  have h1 := reportPhase_summary_content "out" "test" [["0", "A"], ["1", "B"], ["2", "C"]]
    [["0", "G1"]] [[1, 1, 1]] [[1, 1, 2]] ⟨fun _ => false, fun _ => []⟩
  rw [h1]
  simp only [List.length_cons, List.length_nil, List.range_succ, List.range_zero,
    List.map_append, List.map_cons, List.map_nil, List.nil_append]
  rw [hfine, hcoarse, hr1, hr100]
  rfl

theorem foldl_appendFile_apply (ks : List Nat) (pathOf : Nat → String)
    (blockOf : Nat → List Line) (fs : FS) (p : String) :
    (ks.foldl (fun a k => appendFile a (pathOf k) (blockOf k)) fs) p
      = fs p ++ (ks.filter (fun k => pathOf k == p)).flatMap blockOf := by
  induction ks generalizing fs with
  | nil => simp
  | cons k ks ih =>
    rw [List.foldl_cons, ih, List.filter_cons]
    by_cases h : pathOf k = p
    · simp [appendFile, h]
    · simp [appendFile, h, Ne.symm h]

theorem filter_beq_range (n g : Nat) (h : g < n) :
    (List.range n).filter (fun k => k == g) = [g] := by
  induction n with
  | zero => omega
  | succ n ih =>
    rw [List.range_succ, List.filter_append]
    by_cases hg : g < n
    · rw [ih hg]
      have : (List.filter (fun k => k == g) [n]) = [] := by
        simp [Nat.ne_of_gt hg]
      rw [this, List.append_nil]
    · have hgn : g = n := by omega
      subst hgn
      have h0 : (List.range g).filter (fun k => k == g) = [] := by
        apply List.filter_eq_nil_iff.mpr
        intro a ha
        have := List.mem_range.mp ha
        simp
        omega
      rw [h0, List.nil_append]
      simp

/-- C8: the per-genome report is an append — after the run, the file
`<outDir>/<gid>.out` holds its previous content unchanged, followed by
the new consistency block — and the output directory exists afterwards
whether or not it did before.  (Hypotheses: the genome's file is distinct
from the other genomes' files and from the aggregate summary file.) -/
theorem per_genome_file_appended (outDir testDir : String)
    (colNames genomes : List (List String)) (X P : Mat) (s : IOState) (g : Nat)
    (hg : g < X.length)
    (hsum : gtoSumPath outDir ((genomes.getD g []).getD 1 "") ≠ summaryPath testDir)
    (huniq : ∀ g', g' < X.length → g' ≠ g →
        gtoSumPath outDir ((genomes.getD g' []).getD 1 "")
          ≠ gtoSumPath outDir ((genomes.getD g []).getD 1 "")) :
    (reportPhase outDir testDir colNames genomes X P s).files
        (gtoSumPath outDir ((genomes.getD g []).getD 1 ""))
      = s.files (gtoSumPath outDir ((genomes.getD g []).getD 1 ""))
        ++ summaryBlock ((X.headD []).length) colNames (X.getD g []) (P.getD g [])
            ((coarse_const X P).getD g 0) ((fine_const X P).getD g 0)
      ∧ (reportPhase outDir testDir colNames genomes X P s).dirs outDir = true := by
  constructor
  · simp only [reportPhase, writeFile]
    rw [if_neg hsum]
    rw [foldl_appendFile_apply]
    have hfil : (List.range X.length).filter
        (fun k => gtoSumPath outDir ((genomes.getD k []).getD 1 "")
          == gtoSumPath outDir ((genomes.getD g []).getD 1 "")) = [g] := by
      rw [List.filter_congr (q := fun k => k == g) ?_]
      · exact filter_beq_range X.length g hg
      · intro k hk
        have hkn := List.mem_range.mp hk
        by_cases hkg : k = g
        · subst hkg; simp
        · have hne := huniq k hkn hkg
          have hbeq : (gtoSumPath outDir ((genomes.getD k []).getD 1 "")
              == gtoSumPath outDir ((genomes.getD g []).getD 1 "")) = false :=
            beq_eq_false_iff_ne.mpr hne
          have hbeq2 : (k == g) = false := beq_eq_false_iff_ne.mpr hkg
          rw [hbeq]
          exact hbeq2.symm
    rw [hfil]
    simp
  · simp only [reportPhase]
    by_cases h : s.dirs outDir = true
    · simp [h]
    · simp [h]

/-- Witness for C8 at a concrete input: a one-genome run over a file
system in which `out/G1.out` already holds a prior line. -/
theorem per_genome_file_appended_witness :
    (reportPhase "out" "test" [["0", "A"]] [["0", "G1"]] [[1]] [[1]]
        ⟨fun _ => false, fun _ => [Line.header "prior" 0]⟩).files
        (gtoSumPath "out" (([["0", "G1"]].getD 0 []).getD 1 ""))
      = (fun _ => [Line.header "prior" 0]) (gtoSumPath "out" (([["0", "G1"]].getD 0 []).getD 1 ""))
        ++ summaryBlock (([[1]] : Mat).headD []).length [["0", "A"]]
            (([[1]] : Mat).getD 0 []) (([[1]] : Mat).getD 0 [])
            ((coarse_const [[1]] [[1]]).getD 0 0) ((fine_const [[1]] [[1]]).getD 0 0)
      ∧ (reportPhase "out" "test" [["0", "A"]] [["0", "G1"]] [[1]] [[1]]
          ⟨fun _ => false, fun _ => [Line.header "prior" 0]⟩).dirs "out" = true :=
  per_genome_file_appended "out" "test" [["0", "A"]] [["0", "G1"]] [[1]] [[1]]
    ⟨fun _ => false, fun _ => [Line.header "prior" 0]⟩ 0 (by decide) (by decide)
    (fun g' h1 h2 => absurd (Nat.lt_one_iff.mp h1) h2)

/-- C10: in the per-genome report loop, a mismatch line for column `c`
is produced iff the predicted and true values are unequal as numbers;
the line shows both values truncated toward zero with `int()`, so a
non-integral prediction that differs from the true count but truncates
to the same integer yields a line with two identical integers. -/
theorem mismatch_line_iff (colNames : List (List String)) (xr pr : List ℚ)
    (R c : Nat) (hc : c < R) :
    ((mismatchAt colNames xr pr c).isSome ↔ pr.getD c 0 ≠ xr.getD c 0)
      ∧ (pr.getD c 0 ≠ xr.getD c 0 →
          mismatchAt colNames xr pr c
            = some (.mismatch ((colNames.getD c []).getD 1 "")
                (pytrunc (pr.getD c 0)) (pytrunc (xr.getD c 0))))
      ∧ (∀ l, mismatchAt colNames xr pr c = some l →
          l ∈ mismatchLines R colNames xr pr)
      ∧ (pr.getD c 0 ≠ xr.getD c 0 → pytrunc (pr.getD c 0) = pytrunc (xr.getD c 0) →
          ∃ name k, mismatchAt colNames xr pr c = some (.mismatch name k k)) := by
  refine ⟨?_, ?_, ?_, ?_⟩
  · constructor
    · intro hs
      by_cases hne : pr.getD c 0 ≠ xr.getD c 0
      · exact hne
      · exfalso
        rw [mismatchAt, if_neg hne] at hs
        simp at hs
    · intro hne
      rw [mismatchAt, if_pos hne]
      rfl
  · intro hne
    rw [mismatchAt, if_pos hne]
  · intro l hl
    rw [mismatchLines]
    exact List.mem_filterMap.mpr ⟨c, List.mem_range.mpr hc, hl⟩
  · intro hne htr
    refine ⟨(colNames.getD c []).getD 1 "", pytrunc (xr.getD c 0), ?_⟩
    rw [mismatchAt, if_pos hne, htr]

/-- Witness for C10 at a concrete input: predicted 1.5 versus true 1 —
unequal values, equal truncations — yields a line showing `1` and `1`. -/
theorem mismatch_line_iff_witness :
    mismatchAt [["0", "RoleA"]] [1] [3/2] 0
        = some (.mismatch "RoleA" (pytrunc ((3/2 : ℚ))) (pytrunc ((1 : ℚ))))
      ∧ pytrunc ((3/2 : ℚ)) = 1 ∧ pytrunc ((1 : ℚ)) = 1
      ∧ (∃ name k, mismatchAt [["0", "RoleA"]] [1] [3/2] 0
          = some (.mismatch name k k)) := by
  have h32 : pytrunc ((3/2 : ℚ)) = 1 := by
    rw [pytrunc, if_pos (by norm_num)]
    norm_num
  have h1 : pytrunc ((1 : ℚ)) = 1 := by
    rw [pytrunc, if_pos (by norm_num)]
    norm_num
  have hne : ([3/2].getD 0 0 : ℚ) ≠ [1].getD 0 0 := by norm_num
  have hthm := mismatch_line_iff [["0", "RoleA"]] [1] [3/2] 1 0 (by decide)
  refine ⟨?_, h32, h1, ?_⟩
  · exact hthm.2.1 hne
  · exact hthm.2.2.2 hne (h32.trans h1.symm)

/-! ### Script control flow (C7): lines 63–124 -/

/-- A file-system operation the script performs, in program order. -/
inductive FileOp where
  | read (path : String)
  | append (path : String)
  | write (path : String)
deriving DecidableEq, Repr

/-- `<trainDir>/Predictors/<roleID>/Classifiers/<clfType>`. -/
def clfDir (trainDir roleID clfType : String) : String :=
  trainDir ++ "/Predictors/" ++ roleID ++ "/Classifiers/" ++ clfType

/-- The script's `__main__` control flow as (exit argument, ordered file
operations): the `os.path.isdir(testDir)` check (lines 66–68) runs before
the module-level `genfromtxt` loads, the predictor loads, the per-genome
appends and the summary write, and on failure calls `sys.exit(-1)`
(modelled as the argument passed to `sys.exit`). -/
def scriptRun (trainDir testDir outDir clfType : String) (useLDA : Bool)
    (isdirTest : Bool) (R : Nat) (roleID : Nat → String) (G : Nat)
    (genomeID : Nat → String) : Option Int × List FileOp :=
  if !isdirTest then (some (-1), [])
  else (none,
    [FileOp.read (testDir ++ "/X"), FileOp.read (testDir ++ "/col.h"),
      FileOp.read (testDir ++ "/row.h")]
    ++ (List.range R).flatMap (fun c =>
        (if useLDA then [FileOp.read (clfDir trainDir (roleID c) clfType ++ "/LDA_vars")]
         else [])
        ++ [FileOp.read (clfDir trainDir (roleID c) clfType ++ "/" ++ clfType)])
    ++ (List.range G).map (fun g => FileOp.append (gtoSumPath outDir (genomeID g)))
    ++ [FileOp.write (summaryPath testDir)])

/-- C7: when `testDir` is not a directory, the script exits with `-1`
having performed no file operation at all — in particular it has created
neither per-genome `.out` files nor `summary.out`. -/
theorem invalid_testDir_exits_clean (trainDir testDir outDir clfType : String)
    (useLDA : Bool) (isdirTest : Bool) (R : Nat) (roleID : Nat → String) (G : Nat)
    (genomeID : Nat → String) (h : isdirTest = false) :
    scriptRun trainDir testDir outDir clfType useLDA isdirTest R roleID G genomeID
        = (some (-1), [])
      ∧ ∀ op ∈ (scriptRun trainDir testDir outDir clfType useLDA isdirTest R
          roleID G genomeID).2, False := by
  subst h
  exact ⟨rfl, by simp [scriptRun]⟩

/-- Witness for C7 at a concrete input. -/
theorem invalid_testDir_exits_clean_witness :
    scriptRun "train" "missing" "out" "RandomForestClassifier" false false 3
        (fun _ => "r") 2 (fun _ => "g") = (some (-1), [])
      ∧ ∀ op ∈ (scriptRun "train" "missing" "out" "RandomForestClassifier" false false 3
          (fun _ => "r") 2 (fun _ => "g")).2, False :=
  invalid_testDir_exits_clean "train" "missing" "out" "RandomForestClassifier"
    false false 3 (fun _ => "r") 2 (fun _ => "g") rfl

end EvalMatrix
